import Mathlib

/-!
Shallow embedding of the Ledger & Balance Reconciliation Engine of
`src/main.py` (AI-Finance-Tracker-Telegram-Bot).

The SQLite `transactions` table (`init_db`, main.py:58-88) is modelled as a
list of rows kept in insertion order together with the `AUTOINCREMENT`
counter for the next `id`.  Because every insert assigns the next counter
value and soft deletion never removes a row, the list order coincides with
ascending-`id` order; this is proved below (`storeWF`) and used wherever a
SQL query says `ORDER BY id`.

`REAL` amounts and balances are modelled as exact rationals: every claim
below is about the structure of the balance bookkeeping, not about
floating-point rounding, and the code combines balances only by `+`/`-`.
The `date` column (creation timestamp) is not modelled: no claim mentions
it.  ISO `YYYY-MM-DD` due-date strings compare lexicographically exactly
like their digit strings, so `return_date` is modelled as `Option Nat`
(`none` is SQL `NULL`, which every comparison excludes).
-/

attribute [local semireducible] Rat.add Rat.sub Rat.mul

/-- Python `str.lower()` as used on the `type` field: an ASCII case map,
written by structural recursion over the characters so that concrete
proofs can evaluate it (`String.toLower` is definitionally opaque). -/
def pyLower (s : String) : String := ⟨s.data.map Char.toLower⟩

/-- Python `str.upper()` as used on the `currency` field. -/
def pyUpper (s : String) : String := ⟨s.data.map Char.toUpper⟩

/-- One row of the `transactions` table (schema in `init_db`,
main.py:58-88; defaults `notified = 0`, `debt_status = 'open'`,
`is_deleted = 0`). -/
structure Txn where
  id : Nat
  userId : Nat
  type : String
  category : String
  amount : ℚ
  currency : String
  balance : ℚ
  description : String
  debtorName : Option String
  returnDate : Option Nat
  notified : Bool
  debtStatus : String
  isDeleted : Bool
  deriving DecidableEq, Repr

/-- The persisted store: the `transactions` table plus the
`AUTOINCREMENT` state.  SQLite assigns ids 1, 2, 3, ... -/
structure Store where
  rows : List Txn
  nextId : Nat
  deriving DecidableEq, Repr

/-- The empty database right after `init_db`. -/
def Store.empty : Store := { rows := [], nextId := 1 }

/-- A transaction draft as handed to `add_multiple_transactions`: the
dict produced by the extraction layer.  `currency` is `Option` because
the code reads it with `trans.get('currency', 'UZS')`. -/
structure Candidate where
  type : String
  amount : ℚ
  category : String
  description : String
  currency : Option String
  debtorName : Option String
  returnDate : Option Nat
  deriving DecidableEq, Repr

/-- The row filter `user_id = ? AND currency = ? AND is_deleted = 0`
shared by the balance queries. -/
def activeMatch (uid : Nat) (cur : String) (r : Txn) : Bool :=
  r.userId == uid && r.currency == cur && !r.isDeleted

/-- The non-deleted transactions of one (owner, currency) pair, in
stored (= ascending id) order; the stream Invariant I1 talks about. -/
def activeStream (s : Store) (uid : Nat) (cur : String) : List Txn :=
  s.rows.filter (activeMatch uid cur)

/-- The row with the greatest `id` among a list, if any: realises
`ORDER BY id DESC LIMIT 1` on the filtered rows. -/
def maxById : List Txn → Option Txn
  | [] => none
  | r :: rest =>
    match maxById rest with
    | none => some r
    | some b => if r.id ≤ b.id then some b else some r

/-- Model of `get_last_balance` (main.py:112-118): balance of the latest
non-deleted row for `(user_id, currency.upper())`, `0.0` if none. -/
def get_last_balance (s : Store) (uid : Nat) (currency : String) : ℚ :=
  match maxById (s.rows.filter (activeMatch uid (pyUpper currency))) with
  | some r => r.balance
  | none => 0

/-- The loop body of `add_multiple_transactions` (main.py:126-142).
Python semantics preserved: an unknown `type` hits `continue` before the
currency is ever looked up; a known type with a currency other than the
two keys of the `balances` dict raises `KeyError` at
`balances[currency] -= amount` / `+= amount`; otherwise the per-currency
running balance is updated first and the row is inserted with the
updated value, collecting `cursor.lastrowid`. -/
def add_loop (uid : Nat) : List Candidate → ℚ → ℚ → Nat →
    Except String (ℚ × ℚ × Nat × List Txn × List Nat)
  | [], uzs, usd, nid => .ok (uzs, usd, nid, [], [])
  | c :: rest, uzs, usd, nid =>
    let ty := pyLower c.type
    let cur := pyUpper (c.currency.getD "UZS")
    if ty = "expense" ∨ ty = "income" then
      if cur = "UZS" ∨ cur = "USD" then
        let delta : ℚ := if ty = "expense" then -c.amount else c.amount
        let uzs' := if cur = "UZS" then uzs + delta else uzs
        let usd' := if cur = "UZS" then usd else usd + delta
        let row : Txn :=
          { id := nid, userId := uid, type := c.type, category := c.category,
            amount := c.amount, currency := cur,
            balance := if cur = "UZS" then uzs' else usd',
            description := c.description, debtorName := c.debtorName,
            returnDate := c.returnDate, notified := false,
            debtStatus := "open", isDeleted := false }
        match add_loop uid rest uzs' usd' (nid + 1) with
        | .ok (u, d, n, rs, ids) => .ok (u, d, n, row :: rs, nid :: ids)
        | .error e => .error e
      else .error "KeyError"
    else add_loop uid rest uzs usd nid

/-- Model of `add_multiple_transactions` (main.py:120-147).  Seeds the in-memory
balances from `get_last_balance` for both fixed currencies, runs the
loop, and commits everything at the end (`conn.commit()`).  A raised
`KeyError` leaves the implicit SQLite transaction uncommitted, so the
error branch carries no store: the caller keeps the unchanged one. -/
def add_multiple_transactions (s : Store) (uid : Nat) (cands : List Candidate) :
    Except String (Store × (ℚ × ℚ) × List Nat) :=
  match add_loop uid cands (get_last_balance s uid "UZS")
      (get_last_balance s uid "USD") s.nextId with
  | .ok (u, d, n, rs, ids) => .ok ({ rows := s.rows ++ rs, nextId := n }, (u, d), ids)
  | .error e => .error e

/-- Model of `get_all_transactions` (main.py:159-167): every non-deleted row of
the owner, `ORDER BY id DESC` — the reverse of stored order. -/
def get_all_transactions (s : Store) (uid : Nat) : List Txn :=
  (s.rows.filter (fun r => r.userId == uid && !r.isDeleted)).reverse

/-- The signed contribution of a stored row to the running balance, as
both the insert loop and the reconciliation loop compute it:
`expense` subtracts, anything else adds
(main.py:131-132 and main.py:190-191). -/
def signedAmount (r : Txn) : ℚ :=
  if pyLower r.type = "expense" then -r.amount else r.amount

/-- The `UPDATE ... SET is_deleted = 1 WHERE id = ?` of
`delete_transaction_and_recalculate` (main.py:181). -/
def markDeleted (tid : Nat) (r : Txn) : Txn :=
  if r.id = tid then { r with isDeleted := true } else r

/-- The guard of the tail walk in `delete_transaction_and_recalculate`
(main.py:186): `user_id = ? AND currency = ? AND id > ? AND
is_deleted = 0`. -/
def tailMatch (uid : Nat) (cur : String) (tid : Nat) (r : Txn) : Bool :=
  r.userId == uid && r.currency == cur && decide (tid < r.id) && !r.isDeleted

/-- The tail walk of `delete_transaction_and_recalculate`
(main.py:186-192): the selected rows, `ORDER BY id ASC`, each get the
cumulatively updated balance written back.  The store keeps rows in
ascending-id order, so one in-order pass over the list with a running
accumulator realises exactly those `UPDATE` statements. -/
def reconcile (uid : Nat) (cur : String) (tid : Nat) : ℚ → List Txn → List Txn
  | _, [] => []
  | b, r :: rest =>
    if tailMatch uid cur tid r then
      { r with balance := b + signedAmount r } ::
        reconcile uid cur tid (b + signedAmount r) rest
    else r :: reconcile uid cur tid b rest

/-- Model of `delete_transaction_and_recalculate` (main.py:169-201): find the
target (`NotFound` → `ValueError`, rolled back), mark it deleted, read
the baseline balance (latest non-deleted earlier row of the same
(owner, currency), else `0.0`, main.py:182-184), re-fold the later
rows of that stream, commit all of it together. -/
def delete_transaction_and_recalculate (s : Store) (uid : Nat) (tid : Nat) :
    Except String Store :=
  match s.rows.find? (fun r => r.id == tid && r.userId == uid && !r.isDeleted) with
  | none => .error "NotFound"
  | some t =>
    let rows1 := s.rows.map (markDeleted tid)
    let baseline : ℚ :=
      match maxById (rows1.filter (fun r =>
          r.userId == uid && r.currency == t.currency &&
          decide (r.id < tid) && !r.isDeleted)) with
      | some p => p.balance
      | none => 0
    .ok { s with rows := reconcile uid t.currency tid baseline rows1 }

/-- The `SELECT` of `check_due_debts` (main.py:643): `category = 'Debt'
AND return_date <= today AND notified = 0 AND is_deleted = 0 AND
debt_status = 'open'`; a `NULL` due date satisfies no comparison.  The
scan itself writes nothing, so the store comes back unchanged. -/
def check_due_debts_scan (s : Store) (today : Nat) : List Txn × Store :=
  (s.rows.filter (fun r =>
      r.category == "Debt" &&
      (match r.returnDate with | some d => decide (d ≤ today) | none => false) &&
      !r.notified && !r.isDeleted && r.debtStatus == "open"),
    s)

/-- The `UPDATE transactions SET notified = 1 WHERE id = ?` issued by
`check_due_debts` after a reminder is delivered (main.py:656). -/
def markNotified (s : Store) (tid : Nat) : Store :=
  { s with rows := s.rows.map (fun r =>
      if r.id = tid then { r with notified := true } else r) }

/-- The guard of the debt-paid branch of `button_handler`
(main.py:519-522): the row with `id = ? AND user_id = ? AND
is_deleted = 0`, accepted only when its `debt_status` is `'open'`.
Note: the code never checks `category`. -/
def debt_paid_guard (s : Store) (uid : Nat) (tid : Nat) : Option Txn :=
  match s.rows.find? (fun r => r.id == tid && r.userId == uid && !r.isDeleted) with
  | some r => if r.debtStatus == "open" then some r else none
  | none => none

/-- The repayment draft built at main.py:524; Python renders a missing
debtor as the string `None` inside the f-string. -/
def repaymentCandidate (t : Txn) : Candidate :=
  { type := "income", amount := t.amount, category := "Debt Repayment",
    description := "Repayment from " ++ t.debtorName.getD "None",
    currency := some t.currency, debtorName := none, returnDate := none }

/-- The `UPDATE transactions SET debt_status = 'paid' WHERE id = ?`
issued on a second connection at main.py:525-529. -/
def setDebtPaid (s : Store) (tid : Nat) : Store :=
  { s with rows := s.rows.map (fun r =>
      if r.id = tid then { r with debtStatus := "paid" } else r) }

/-- Outcome reported to the chat user by the debt-paid branch. -/
inductive DebtOutcome where
  | paid
  | failed
  deriving DecidableEq, Repr

/-- The debt-paid branch of `button_handler` (main.py:514-532) run to
completion: guard, then `add_multiple_transactions` for the repayment
(first commit), then `setDebtPaid` (second commit).  On guard failure
or a raised error nothing is written and the store is returned
unchanged. -/
def button_handler_debt_paid (s : Store) (uid : Nat) (tid : Nat) :
    DebtOutcome × Store :=
  match debt_paid_guard s uid tid with
  | none => (.failed, s)
  | some t =>
    match add_multiple_transactions s uid [repaymentCandidate t] with
    | .error _ => (.failed, s)
    | .ok (s1, _, _) => (.paid, setDebtPaid s1 tid)

/-- The store as committed after the FIRST of the two statements of the
debt-paid branch: `add_multiple_transactions` commits on its own
connection (main.py:144) before the second connection updates
`debt_status` (main.py:525-528), so this state is durably visible. -/
def debt_paid_after_first_commit (s : Store) (uid : Nat) (tid : Nat) :
    Option Store :=
  match debt_paid_guard s uid tid with
  | none => none
  | some t =>
    match add_multiple_transactions s uid [repaymentCandidate t] with
    | .error _ => none
    | .ok (s1, _, _) => some s1

/-- Invariant I1 as a chained predicate: starting from `b`, every row
stores exactly the previous balance plus its signed amount. -/
def chain : ℚ → List Txn → Prop
  | _, [] => True
  | b, r :: rest => r.balance = b + signedAmount r ∧ chain r.balance rest

instance chainDec : (b : ℚ) → (l : List Txn) → Decidable (chain b l)
  | _, [] => .isTrue trivial
  | b, r :: rest =>
    haveI := chainDec r.balance rest
    inferInstanceAs (Decidable (r.balance = b + signedAmount r ∧ chain r.balance rest))

instance exceptDecEq {e a : Type} [DecidableEq e] [DecidableEq a] :
    DecidableEq (Except e a) := fun x y =>
  match x, y with
  | .ok v, .ok w => decidable_of_iff (v = w) (by simp)
  | .error v, .error w => decidable_of_iff (v = w) (by simp)
  | .ok _, .error _ => .isFalse (by simp)
  | .error _, .ok _ => .isFalse (by simp)

/-- Well-formedness maintained by every operation: rows sit in strictly
ascending id order and all ids are below the autoincrement counter. -/
abbrev storeWF (s : Store) : Prop :=
  s.rows.Pairwise (fun a b => a.id < b.id) ∧ ∀ r ∈ s.rows, r.id < s.nextId

/-- Invariant I1 over the whole store: every (owner, currency) stream
chains from 0. -/
def balInv (s : Store) : Prop :=
  ∀ uid cur, chain 0 (activeStream s uid cur)

/-- The stores reachable from the fresh database by any sequence of
(successful) batch inserts and soft deletions; failed operations leave
the store unchanged. -/
inductive Reach : Store → Prop
  | init : Reach Store.empty
  | step_add {s s' : Store} {uid : Nat} {cands : List Candidate}
      {b : ℚ × ℚ} {ids : List Nat} :
      Reach s → add_multiple_transactions s uid cands = .ok (s', b, ids) →
      Reach s'
  | step_del {s s' : Store} {uid tid : Nat} :
      Reach s → delete_transaction_and_recalculate s uid tid = .ok s' →
      Reach s'

/-! ### Helper lemmas -/

lemma activeMatch_eq_true {uid : Nat} {cur : String} {r : Txn} :
    activeMatch uid cur r = true ↔
      r.userId = uid ∧ r.currency = cur ∧ r.isDeleted = false := by
  simp [activeMatch, and_assoc]

lemma tailMatch_eq_true {uid : Nat} {cur : String} {tid : Nat} {r : Txn} :
    tailMatch uid cur tid r = true ↔
      r.userId = uid ∧ r.currency = cur ∧ tid < r.id ∧ r.isDeleted = false := by
  simp [tailMatch, and_assoc]

/-- The balance after the last row of a stream, `b` if the stream is
empty: the value `get_last_balance` reproduces. -/
def endBal (b : ℚ) (l : List Txn) : ℚ :=
  match l.getLast? with
  | some r => r.balance
  | none => b

lemma endBal_nil {b : ℚ} : endBal b [] = b := rfl

lemma endBal_cons {b : ℚ} {r : Txn} {l : List Txn} :
    endBal b (r :: l) = endBal r.balance l := by
  cases l with
  | nil => rfl
  | cons x xs =>
    cases hl : (x :: xs).getLast? with
    | none => simp [List.getLast?_eq_none_iff] at hl
    | some m => simp [endBal, List.getLast?_cons_cons, hl]

lemma chain_append {b : ℚ} {xs ys : List Txn} :
    chain b (xs ++ ys) ↔ chain b xs ∧ chain (endBal b xs) ys := by
  induction xs generalizing b with
  | nil => simp [chain, endBal_nil]
  | cons r xs ih => simp [chain, ih, endBal_cons, and_assoc]

lemma maxById_eq_none {l : List Txn} : maxById l = none ↔ l = [] := by
  cases l with
  | nil => simp [maxById]
  | cons r rest =>
    simp only [maxById]
    cases maxById rest with
    | none => simp
    | some b => by_cases h : r.id ≤ b.id <;> simp [h]

lemma maxById_mem {l : List Txn} {m : Txn} (h : maxById l = some m) : m ∈ l := by
  induction l with
  | nil => simp [maxById] at h
  | cons r rest ih =>
    simp only [maxById] at h
    cases hm : maxById rest with
    | none =>
      rw [hm] at h
      simp at h
      simp [h]
    | some b =>
      rw [hm] at h
      simp at h
      by_cases hle : r.id ≤ b.id
      · rw [if_pos hle] at h
        simp at h
        subst h
        exact List.mem_cons_of_mem _ (ih hm)
      · rw [if_neg hle] at h
        simp at h
        simp [h]

lemma maxById_cons {r : Txn} {rest : List Txn} :
    maxById (r :: rest) = match maxById rest with
      | none => some r
      | some b => if r.id ≤ b.id then some b else some r := rfl

lemma maxById_le {l : List Txn} : ∀ {m : Txn}, maxById l = some m →
    ∀ x ∈ l, x.id ≤ m.id := by
  induction l with
  | nil => intro m h; simp [maxById] at h
  | cons r rest ih =>
    intro m h x hx
    rw [maxById_cons] at h
    cases hm : maxById rest with
    | none =>
      rw [hm] at h
      simp at h
      subst h
      have : rest = [] := maxById_eq_none.mp hm
      subst this
      simp at hx
      subst hx
      exact le_refl _
    | some b =>
      rw [hm] at h
      simp at h
      by_cases hle : r.id ≤ b.id
      · rw [if_pos hle] at h
        simp at h
        subst h
        rcases List.mem_cons.mp hx with rfl | hx'
        · exact hle
        · exact ih hm x hx'
      · rw [if_neg hle] at h
        simp at h
        subst h
        rcases List.mem_cons.mp hx with rfl | hx'
        · exact le_refl _
        · exact le_trans (ih hm x hx') (le_of_not_le hle)

lemma maxById_sorted {l : List Txn}
    (h : l.Pairwise (fun a b => a.id < b.id)) : maxById l = l.getLast? := by
  induction l with
  | nil => rfl
  | cons r rest ih =>
    rcases List.pairwise_cons.mp h with ⟨hr, hrest⟩
    cases rest with
    | nil => rfl
    | cons x xs =>
      have htail := ih hrest
      rw [maxById_cons, htail, List.getLast?_cons_cons]
      cases hl : (x :: xs).getLast? with
      | none => simp [List.getLast?_eq_none_iff] at hl
      | some m =>
        have hm : m ∈ x :: xs := List.mem_of_getLast?_eq_some hl
        have hlt : r.id < m.id := hr m hm
        simp [hlt.le]

lemma pyUpper_UZS : pyUpper "UZS" = "UZS" := by decide

lemma pyUpper_USD : pyUpper "USD" = "USD" := by decide

lemma pyLower_income : pyLower "income" = "income" := by decide

lemma get_last_balance_eq_endBal (s : Store) (uid : Nat) (cur : String)
    (hs : s.rows.Pairwise (fun a b => a.id < b.id)) :
    get_last_balance s uid cur = endBal 0 (activeStream s uid (pyUpper cur)) := by
  unfold get_last_balance endBal activeStream
  rw [maxById_sorted (hs.filter _)]

lemma add_loop_ok {uid : Nat} : ∀ (cands : List Candidate) (uzs usd : ℚ) (nid : Nat)
    {u d : ℚ} {n : Nat} {rs : List Txn} {ids : List Nat},
    add_loop uid cands uzs usd nid = .ok (u, d, n, rs, ids) →
    (∀ r ∈ rs, r.userId = uid ∧ r.isDeleted = false ∧
        (r.currency = "UZS" ∨ r.currency = "USD") ∧ nid ≤ r.id ∧ r.id < n) ∧
    nid ≤ n ∧
    ids = rs.map Txn.id ∧
    rs.Pairwise (fun a b => a.id < b.id) ∧
    chain uzs (rs.filter (activeMatch uid "UZS")) ∧
    chain usd (rs.filter (activeMatch uid "USD")) := by
  intro cands
  induction cands with
  | nil =>
    intro uzs usd nid u d n rs ids h
    simp only [add_loop] at h
    obtain ⟨rfl, rfl, rfl, rfl, rfl⟩ := h
    simp [chain]
  | cons c rest ih =>
    intro uzs usd nid u d n rs ids h
    simp only [add_loop] at h
    by_cases hk : pyLower c.type = "expense" ∨ pyLower c.type = "income"
    swap
    · rw [if_neg hk] at h
      exact ih _ _ _ h
    rw [if_pos hk] at h
    by_cases hc : pyUpper (c.currency.getD "UZS") = "UZS" ∨
        pyUpper (c.currency.getD "UZS") = "USD"
    swap
    · rw [if_neg hc] at h
      simp at h
    rw [if_pos hc] at h
    split at h
    · rename_i u' d' n' rs' ids' hrec
      simp only [Except.ok.injEq, Prod.mk.injEq] at h
      obtain ⟨rfl, rfl, rfl, hrs, hids⟩ := h
      subst hrs
      subst hids
      obtain ⟨ihMem, ihLe, ihIds, ihPw, ihUZ, ihUS⟩ := ih _ _ _ hrec
      refine ⟨?_, ?_, ?_, ?_, ?_, ?_⟩
      · intro r hr
        rcases List.mem_cons.mp hr with rfl | hr'
        · exact ⟨rfl, rfl, hc, le_refl _,
            lt_of_lt_of_le (Nat.lt_succ_self nid) ihLe⟩
        · obtain ⟨h1, h2, h3, h4, h5⟩ := ihMem r hr'
          exact ⟨h1, h2, h3, le_trans (Nat.le_succ nid) h4, h5⟩
      · exact le_trans (Nat.le_succ nid) ihLe
      · simp [ihIds]
      · refine List.pairwise_cons.mpr ⟨?_, ihPw⟩
        intro x hx
        exact lt_of_lt_of_le (Nat.lt_succ_self nid) (ihMem x hx).2.2.2.1
      · rcases hc with hcu | hcd
        · rw [List.filter_cons_of_pos (by simp [activeMatch, hcu])]
          refine ⟨?_, ?_⟩
          · simp [signedAmount, hcu]
          · simpa [hcu] using ihUZ
        · have hne : ¬ pyUpper (c.currency.getD "UZS") = "UZS" := by
            rw [hcd]; decide
          rw [List.filter_cons_of_neg (by simp [activeMatch, hcd])]
          simpa [hne] using ihUZ
      · rcases hc with hcu | hcd
        · have hne : ¬ pyUpper (c.currency.getD "UZS") = "USD" := by
            rw [hcu]; decide
          rw [List.filter_cons_of_neg (by simp [activeMatch, hcu])]
          simpa [hcu] using ihUS
        · have hne : ¬ pyUpper (c.currency.getD "UZS") = "UZS" := by
            rw [hcd]; decide
          rw [List.filter_cons_of_pos (by simp [activeMatch, hcd])]
          refine ⟨?_, ?_⟩
          · simp [signedAmount, hcd, hne]
          · simpa [hcd, hne] using ihUS
    · rename_i e hrec
      simp at h

lemma add_ok_destruct {s : Store} {uid : Nat} {cands : List Candidate}
    {s' : Store} {bal : ℚ × ℚ} {ids : List Nat}
    (h : add_multiple_transactions s uid cands = .ok (s', bal, ids)) :
    ∃ rs, s'.rows = s.rows ++ rs ∧
      add_loop uid cands (get_last_balance s uid "UZS")
        (get_last_balance s uid "USD") s.nextId =
        .ok (bal.1, bal.2, s'.nextId, rs, ids) := by
  unfold add_multiple_transactions at h
  cases hrec : add_loop uid cands (get_last_balance s uid "UZS")
      (get_last_balance s uid "USD") s.nextId with
  | error e => rw [hrec] at h; simp at h
  | ok val =>
    obtain ⟨u, d, n, rs, ids'⟩ := val
    rw [hrec] at h
    simp only [Except.ok.injEq, Prod.mk.injEq] at h
    obtain ⟨hs', hbal, hids⟩ := h
    subst hbal
    subst hids
    subst hs'
    exact ⟨rs, rfl, rfl⟩

lemma add_ok_spec {s : Store} {uid : Nat} {cands : List Candidate}
    {s' : Store} {bal : ℚ × ℚ} {ids : List Nat} (hWF : storeWF s)
    (h : add_multiple_transactions s uid cands = .ok (s', bal, ids)) :
    storeWF s' ∧ (balInv s → balInv s') ∧
    (∃ rs, s'.rows = s.rows ++ rs) ∧
    (∀ i ∈ ids, ∀ r ∈ s.rows, r.id < i) ∧
    ids.Pairwise (· < ·) := by
  obtain ⟨rs, hrows, hloop⟩ := add_ok_destruct h
  obtain ⟨hMem, hLe, hIds, hPw, hUZ, hUS⟩ := add_loop_ok _ _ _ _ hloop
  have hfresh : ∀ r ∈ rs, s.nextId ≤ r.id := fun r hr => (hMem r hr).2.2.2.1
  have hbound : ∀ r ∈ rs, r.id < s'.nextId := fun r hr => (hMem r hr).2.2.2.2
  have hWF' : storeWF s' := by
    constructor
    · rw [hrows]
      refine List.pairwise_append.mpr ⟨hWF.1, hPw, ?_⟩
      intro a ha b hb
      exact lt_of_lt_of_le (hWF.2 a ha) (hfresh b hb)
    · intro r hr
      rw [hrows] at hr
      rcases List.mem_append.mp hr with hold | hnew
      · exact lt_of_lt_of_le (hWF.2 r hold) hLe
      · exact hbound r hnew
  refine ⟨hWF', ?_, ⟨rs, hrows⟩, ?_, ?_⟩
  · intro hB uid0 cur0
    have hsplit : activeStream s' uid0 cur0 =
        activeStream s uid0 cur0 ++ rs.filter (activeMatch uid0 cur0) := by
      unfold activeStream
      rw [hrows, List.filter_append]
    rw [hsplit]
    by_cases huid : uid0 = uid
    · subst huid
      by_cases hcu : cur0 = "UZS"
      · subst hcu
        refine chain_append.mpr ⟨hB uid0 "UZS", ?_⟩
        have := get_last_balance_eq_endBal s uid0 "UZS" hWF.1
        rw [pyUpper_UZS] at this
        rw [← this]
        exact hUZ
      · by_cases hcd : cur0 = "USD"
        · subst hcd
          refine chain_append.mpr ⟨hB uid0 "USD", ?_⟩
          have := get_last_balance_eq_endBal s uid0 "USD" hWF.1
          rw [pyUpper_USD] at this
          rw [← this]
          exact hUS
        · have hnil : rs.filter (activeMatch uid0 cur0) = [] := by
            rw [List.filter_eq_nil_iff]
            intro r hr
            intro hact
            rcases (hMem r hr).2.2.1 with hcur | hcur
            · exact hcu ((activeMatch_eq_true.mp hact).2.1 ▸ hcur ▸ rfl)
            · exact hcd ((activeMatch_eq_true.mp hact).2.1 ▸ hcur ▸ rfl)
          rw [hnil, List.append_nil]
          exact hB uid0 cur0
    · have hnil : rs.filter (activeMatch uid0 cur0) = [] := by
        rw [List.filter_eq_nil_iff]
        intro r hr hact
        exact huid ((activeMatch_eq_true.mp hact).1 ▸ (hMem r hr).1)
      rw [hnil, List.append_nil]
      exact hB uid0 cur0
  · intro i hi r hr
    rw [hIds] at hi
    obtain ⟨x, hx, rfl⟩ := List.mem_map.mp hi
    exact lt_of_lt_of_le (hWF.2 r hr) (hfresh x hx)
  · rw [hIds]
    exact List.pairwise_map.mpr (by exact hPw)

lemma markDeleted_id {tid : Nat} {r : Txn} : (markDeleted tid r).id = r.id := by
  unfold markDeleted
  split <;> rfl

lemma markDeleted_of_ne {tid : Nat} {r : Txn} (h : r.id ≠ tid) :
    markDeleted tid r = r := if_neg h

lemma reconcile_map_id {uid : Nat} {cur : String} {tid : Nat} :
    ∀ {b : ℚ} {l : List Txn},
    (reconcile uid cur tid b l).map Txn.id = l.map Txn.id := by
  intro b l
  induction l generalizing b with
  | nil => rfl
  | cons r rest ih =>
    simp only [reconcile]
    split
    · simp only [List.map_cons, ih]
    · simp only [List.map_cons, ih]

lemma reconcile_skip_front (uid : Nat) (cur : String) (tid : Nat) (b : ℚ)
    (pre post : List Txn) (h : ∀ r ∈ pre, tailMatch uid cur tid r = false) :
    reconcile uid cur tid b (pre ++ post) = pre ++ reconcile uid cur tid b post := by
  induction pre with
  | nil => simp
  | cons a pre ih =>
    have ha := h a (List.mem_cons_self a pre)
    simp only [List.cons_append, reconcile, ha, Bool.false_eq_true, if_false,
      List.append_eq]
    rw [ih (fun r hr => h r (List.mem_cons_of_mem a hr))]

lemma reconcile_chain {uid : Nat} {cur : String} {tid : Nat} :
    ∀ {b : ℚ} {l : List Txn}, (∀ r ∈ l, tid < r.id) →
    chain b ((reconcile uid cur tid b l).filter (activeMatch uid cur)) := by
  intro b l
  induction l generalizing b with
  | nil => intro h; simp [reconcile, chain]
  | cons r rest ih =>
    intro h
    simp only [reconcile]
    by_cases hm : tailMatch uid cur tid r = true
    · rw [if_pos hm]
      obtain ⟨h1, h2, _, h4⟩ := tailMatch_eq_true.mp hm
      have hact : activeMatch uid cur { r with balance := b + signedAmount r } = true := by
        simp [activeMatch_eq_true, h1, h2, h4]
      rw [List.filter_cons_of_pos hact]
      refine ⟨rfl, ?_⟩
      exact ih (fun x hx => h x (List.mem_cons_of_mem r hx))
    · rw [if_neg hm]
      have hact : ¬ activeMatch uid cur r = true := by
        intro hx
        obtain ⟨a1, a2, a3⟩ := activeMatch_eq_true.mp hx
        exact hm (tailMatch_eq_true.mpr ⟨a1, a2, h r (List.mem_cons_self r rest), a3⟩)
      rw [List.filter_cons_of_neg hact]
      exact ih (fun x hx => h x (List.mem_cons_of_mem r hx))

lemma reconcile_other {uid : Nat} {cur : String} {tid : Nat} {uid0 : Nat} {cur0 : String}
    (hne : uid0 ≠ uid ∨ cur0 ≠ cur) :
    ∀ {b : ℚ} {l : List Txn},
    (reconcile uid cur tid b l).filter (activeMatch uid0 cur0) =
      l.filter (activeMatch uid0 cur0) := by
  intro b l
  induction l generalizing b with
  | nil => rfl
  | cons r rest ih =>
    simp only [reconcile]
    by_cases hm : tailMatch uid cur tid r = true
    · rw [if_pos hm]
      obtain ⟨h1, h2, _, _⟩ := tailMatch_eq_true.mp hm
      have hboth : ¬ activeMatch uid0 cur0 r = true := by
        intro hx
        obtain ⟨a1, a2, _⟩ := activeMatch_eq_true.mp hx
        rcases hne with hu | hc
        · exact hu (by rw [← a1, h1])
        · exact hc (by rw [← a2, h2])
      have hupd : ¬ activeMatch uid0 cur0 { r with balance := b + signedAmount r } = true := by
        intro hx
        obtain ⟨a1, a2, _⟩ := activeMatch_eq_true.mp hx
        rcases hne with hu | hc
        · exact hu (by rw [← a1]; exact h1)
        · exact hc (by rw [← a2]; exact h2)
      rw [List.filter_cons_of_neg hupd, List.filter_cons_of_neg hboth, ih]
    · rw [if_neg hm]
      by_cases ha : activeMatch uid0 cur0 r = true
      · rw [List.filter_cons_of_pos ha, List.filter_cons_of_pos ha, ih]
      · rw [List.filter_cons_of_neg ha, List.filter_cons_of_neg ha, ih]

lemma reconcile_mem_of_ne_currency {uid : Nat} {cur : String} {tid : Nat} :
    ∀ {b : ℚ} {l : List Txn} {r : Txn}, r ∈ l → r.currency ≠ cur →
    r ∈ reconcile uid cur tid b l := by
  intro b l
  induction l generalizing b with
  | nil => intro r h; simp at h
  | cons x rest ih =>
    intro r hr hne
    simp only [reconcile]
    by_cases hm : tailMatch uid cur tid x = true
    · rw [if_pos hm]
      rcases List.mem_cons.mp hr with rfl | hr'
      · exact absurd (tailMatch_eq_true.mp hm).2.1 hne
      · exact List.mem_cons_of_mem _ (ih hr' hne)
    · rw [if_neg hm]
      rcases List.mem_cons.mp hr with rfl | hr'
      · exact List.mem_cons_self r _
      · exact List.mem_cons_of_mem _ (ih hr' hne)

lemma pairwise_id_unique {l : List Txn} (hp : l.Pairwise (fun a b => a.id < b.id))
    {t r : Txn} (ht : t ∈ l) (hr : r ∈ l) (hid : r.id = t.id) : r = t := by
  induction l with
  | nil => simp at ht
  | cons x rest ih =>
    rcases List.pairwise_cons.mp hp with ⟨hx, hrest⟩
    rcases List.mem_cons.mp ht with rfl | ht' <;>
      rcases List.mem_cons.mp hr with rfl | hr'
    · rfl
    · exact absurd hid (ne_of_gt (hx r hr'))
    · exact absurd hid (ne_of_lt (hx t ht'))
    · exact ih hrest ht' hr'

lemma delete_ok_spec {s : Store} {uid tid : Nat} {s' : Store}
    (hWF : storeWF s) (h : delete_transaction_and_recalculate s uid tid = .ok s') :
    (∃ t ∈ s.rows, t.id = tid ∧ t.userId = uid ∧ t.isDeleted = false ∧
      (∀ r ∈ s.rows, r.currency ≠ t.currency → r ∈ s'.rows)) ∧
    storeWF s' ∧ s'.nextId = s.nextId ∧ (balInv s → balInv s') := by
  simp only [delete_transaction_and_recalculate] at h
  cases hf : s.rows.find? (fun r => r.id == tid && r.userId == uid && !r.isDeleted) with
  | none => rw [hf] at h; simp at h
  | some t =>
    rw [hf] at h
    simp only [Except.ok.injEq] at h
    have htmem : t ∈ s.rows := List.mem_of_find?_eq_some hf
    have htp := List.find?_some hf
    simp only [Bool.and_eq_true, beq_iff_eq, Bool.not_eq_true'] at htp
    obtain ⟨⟨htid, huid⟩, hdel⟩ := htp
    obtain ⟨A, B, hAB⟩ := List.append_of_mem htmem
    have hpairs := hWF.1
    rw [hAB, List.pairwise_append] at hpairs
    obtain ⟨hpwA, hpwTB, hcross⟩ := hpairs
    obtain ⟨htB, hpwB⟩ := List.pairwise_cons.mp hpwTB
    have hA : ∀ a ∈ A, a.id < tid :=
      fun a ha => htid ▸ hcross a ha t (List.mem_cons_self t B)
    have hB : ∀ x ∈ B, tid < x.id := fun x hx => htid ▸ htB x hx
    have hnext : s'.nextId = s.nextId := by rw [← h]
    have hrows0 : s'.rows = reconcile uid t.currency tid
        (match maxById ((s.rows.map (markDeleted tid)).filter (fun r =>
            r.userId == uid && r.currency == t.currency &&
            decide (r.id < tid) && !r.isDeleted)) with
          | some p => p.balance
          | none => 0)
        (s.rows.map (markDeleted tid)) := by rw [← h]
    have hmark : s.rows.map (markDeleted tid) =
        A ++ { t with isDeleted := true } :: B := by
      rw [hAB, List.map_append, List.map_cons]
      have e1 : A.map (markDeleted tid) = A := by
        have e : A.map (markDeleted tid) = A.map id :=
          List.map_congr_left fun a ha => markDeleted_of_ne (ne_of_lt (hA a ha))
        rw [e, List.map_id]
      have e2 : B.map (markDeleted tid) = B := by
        have e : B.map (markDeleted tid) = B.map id :=
          List.map_congr_left fun x hx => markDeleted_of_ne (ne_of_gt (hB x hx))
        rw [e, List.map_id]
      have e3 : markDeleted tid t = { t with isDeleted := true } := by
        unfold markDeleted
        rw [if_pos htid]
      rw [e1, e2, e3]
    have hfP : (A ++ { t with isDeleted := true } :: B).filter (fun r =>
        r.userId == uid && r.currency == t.currency &&
        decide (r.id < tid) && !r.isDeleted) =
        A.filter (activeMatch uid t.currency) := by
      rw [List.filter_append, List.filter_cons_of_neg (by simp)]
      have e1 : B.filter (fun r =>
          r.userId == uid && r.currency == t.currency &&
          decide (r.id < tid) && !r.isDeleted) = [] := by
        rw [List.filter_eq_nil_iff]
        intro x hx hmatch
        simp only [Bool.and_eq_true, beq_iff_eq, decide_eq_true_eq,
          Bool.not_eq_true'] at hmatch
        exact absurd hmatch.1.2 (Nat.lt_asymm (hB x hx))
      have e2 : A.filter (fun r =>
          r.userId == uid && r.currency == t.currency &&
          decide (r.id < tid) && !r.isDeleted) =
          A.filter (activeMatch uid t.currency) := by
        apply List.filter_congr
        intro a ha
        simp [activeMatch, hA a ha]
      rw [e1, e2, List.append_nil]
    have hbase : (match maxById ((A ++ { t with isDeleted := true } :: B).filter
        (fun r => r.userId == uid && r.currency == t.currency &&
          decide (r.id < tid) && !r.isDeleted)) with
        | some p => p.balance
        | none => 0) = endBal 0 (A.filter (activeMatch uid t.currency)) := by
      rw [hfP, maxById_sorted (hpwA.filter _)]
      unfold endBal
      cases (A.filter (activeMatch uid t.currency)).getLast? <;> rfl
    rw [hmark, hbase] at hrows0
    have hpre : ∀ r ∈ A ++ [{ t with isDeleted := true }],
        tailMatch uid t.currency tid r = false := by
      intro r hr
      rcases List.mem_append.mp hr with hrA | hrT
      · simp [tailMatch, Nat.lt_asymm (hA r hrA)]
      · simp only [List.mem_singleton] at hrT
        subst hrT
        simp [tailMatch]
    have hsplit2 : reconcile uid t.currency tid
        (endBal 0 (A.filter (activeMatch uid t.currency)))
        (A ++ { t with isDeleted := true } :: B) =
        A ++ { t with isDeleted := true } ::
          reconcile uid t.currency tid
            (endBal 0 (A.filter (activeMatch uid t.currency))) B := by
      have e := reconcile_skip_front uid t.currency tid
        (endBal 0 (A.filter (activeMatch uid t.currency)))
        (A ++ [{ t with isDeleted := true }]) B hpre
      simpa using e
    rw [hsplit2] at hrows0
    have hids : s'.rows.map Txn.id = s.rows.map Txn.id := by
      rw [hrows0, hAB]
      simp [reconcile_map_id]
    have hpw' : s'.rows.Pairwise (fun a b => a.id < b.id) := by
      have h1 : (s.rows.map Txn.id).Pairwise (· < ·) :=
        List.pairwise_map.mpr hWF.1
      rw [← hids] at h1
      exact List.pairwise_map.mp h1
    have hstream : ∀ uid0 cur0, activeStream s uid0 cur0 =
        A.filter (activeMatch uid0 cur0) ++
          (t :: B).filter (activeMatch uid0 cur0) := by
      intro uid0 cur0
      unfold activeStream
      rw [hAB, List.filter_append]
    have hbi : balInv s → balInv s' := by
      intro hBI uid0 cur0
      unfold activeStream
      by_cases hcase : uid0 = uid ∧ cur0 = t.currency
      · obtain ⟨rfl, rfl⟩ := hcase
        rw [hrows0, List.filter_append,
          List.filter_cons_of_neg (by simp [activeMatch])]
        refine chain_append.mpr ⟨?_, ?_⟩
        · have h0 := hBI uid0 t.currency
          unfold activeStream at h0
          rw [hAB, List.filter_append,
            List.filter_cons_of_pos (by simp [activeMatch, huid, hdel])] at h0
          exact (chain_append.mp h0).1
        · exact reconcile_chain hB
      · have hne : uid0 ≠ uid ∨ cur0 ≠ t.currency := by tauto
        have hnott : ¬ activeMatch uid0 cur0 t = true := by
          intro hx
          obtain ⟨a1, a2, _⟩ := activeMatch_eq_true.mp hx
          rcases hne with hu | hc
          · exact hu (by rw [← a1, huid])
          · exact hc (by rw [← a2])
        rw [hrows0, List.filter_append,
          List.filter_cons_of_neg (by simp [activeMatch]), reconcile_other hne]
        have h0 := hBI uid0 cur0
        rw [hstream uid0 cur0, List.filter_cons_of_neg hnott] at h0
        exact h0
    have hmem8 : ∀ r ∈ s.rows, r.currency ≠ t.currency → r ∈ s'.rows := by
      intro r hr hnecur
      rw [hrows0]
      rw [hAB] at hr
      rcases List.mem_append.mp hr with hrA | hrTB
      · exact List.mem_append_left _ hrA
      · rcases List.mem_cons.mp hrTB with rfl | hrB
        · exact absurd rfl hnecur
        · exact List.mem_append_right _ (List.mem_cons_of_mem _
            (reconcile_mem_of_ne_currency hrB hnecur))
    refine ⟨⟨t, htmem, htid, huid, hdel, hmem8⟩, ⟨hpw', ?_⟩, hnext, hbi⟩
    intro r hr
    have hmm : r.id ∈ s'.rows.map Txn.id := List.mem_map_of_mem _ hr
    rw [hids] at hmm
    obtain ⟨r0, hr0, hr0id⟩ := List.mem_map.mp hmm
    rw [hnext, ← hr0id]
    exact hWF.2 r0 hr0

lemma reach_spec {s : Store} (h : Reach s) : storeWF s ∧ balInv s := by
  induction h with
  | init =>
    refine ⟨⟨List.Pairwise.nil, by simp [Store.empty]⟩, ?_⟩
    intro uid cur
    simp [activeStream, Store.empty, chain]
  | step_add hs hadd ih =>
    obtain ⟨hWF', hbi, _, _, _⟩ := add_ok_spec ih.1 hadd
    exact ⟨hWF', hbi ih.2⟩
  | step_del hs hdel ih =>
    obtain ⟨_, hWF', _, hbi⟩ := delete_ok_spec ih.1 hdel
    exact ⟨hWF', hbi ih.2⟩

/-- A candidate whose `type` the insert loop recognises
(main.py:131-133): anything else hits `continue`. -/
abbrev kindOk (c : Candidate) : Prop :=
  pyLower c.type = "expense" ∨ pyLower c.type = "income"

/-- A candidate whose effective currency is a key of the `balances`
dict (main.py:123): anything else raises `KeyError` at
`balances[currency]`. -/
abbrev curOk (c : Candidate) : Prop :=
  pyUpper (c.currency.getD "UZS") = "UZS" ∨
    pyUpper (c.currency.getD "UZS") = "USD"

lemma add_loop_error {uid : Nat} : ∀ (cands : List Candidate) (uzs usd : ℚ) (nid : Nat),
    (∃ c ∈ cands, kindOk c ∧ ¬ curOk c) →
    add_loop uid cands uzs usd nid = .error "KeyError" := by
  intro cands
  induction cands with
  | nil => intro _ _ _ h; simp at h
  | cons c rest ih =>
    intro uzs usd nid h
    simp only [add_loop]
    by_cases hk : pyLower c.type = "expense" ∨ pyLower c.type = "income"
    · rw [if_pos hk]
      by_cases hc : pyUpper (c.currency.getD "UZS") = "UZS" ∨
          pyUpper (c.currency.getD "UZS") = "USD"
      · rw [if_pos hc]
        obtain ⟨c0, hc0, hk0, hcur0⟩ := h
        rcases List.mem_cons.mp hc0 with rfl | hrest
        · exact absurd hc hcur0
        · rw [ih _ _ _ ⟨c0, hrest, hk0, hcur0⟩]
      · rw [if_neg hc]
    · rw [if_neg hk]
      obtain ⟨c0, hc0, hk0, hcur0⟩ := h
      rcases List.mem_cons.mp hc0 with rfl | hrest
      · exact absurd hk0 hk
      · exact ih _ _ _ ⟨c0, hrest, hk0, hcur0⟩

/-! ### Concrete fixtures used by the witnesses and counterexamples -/

def candA : Candidate :=
  ⟨"income", 100, "Salary", "salary", some "UZS", none, none⟩

def candB : Candidate :=
  ⟨"expense", 30, "Food", "groceries", some "UZS", none, none⟩

def candC : Candidate :=
  ⟨"income", 50, "Gift", "gift", some "UZS", none, none⟩

def candD : Candidate :=
  ⟨"income", 10, "Salary", "bonus", some "UZS", none, none⟩

def cNeg : Candidate :=
  ⟨"expense", -50, "Other", "refund glitch", some "UZS", none, none⟩

def cBadCur : Candidate :=
  ⟨"income", 5, "Other", "euro income", some "EUR", none, none⟩

def cFood : Candidate :=
  ⟨"income", 100, "Food", "food money", some "UZS", none, none⟩

def cDebt : Candidate :=
  ⟨"expense", 10000, "Debt", "lent to Aziz", some "UZS", some "Aziz", some 20250925⟩

def rowA : Txn :=
  ⟨1, 7, "income", "Salary", 100, "UZS", 100, "salary", none, none, false, "open", false⟩

def rowB : Txn :=
  ⟨2, 7, "expense", "Food", 30, "UZS", 70, "groceries", none, none, false, "open", false⟩

def rowC : Txn :=
  ⟨3, 7, "income", "Gift", 50, "UZS", 120, "gift", none, none, false, "open", false⟩

def rowD : Txn :=
  ⟨4, 7, "income", "Salary", 10, "UZS", 160, "bonus", none, none, false, "open", false⟩

def rowNeg : Txn :=
  ⟨2, 7, "expense", "Other", -50, "UZS", 150, "refund glitch", none, none, false, "open", false⟩

def rowFood : Txn :=
  ⟨1, 7, "income", "Food", 100, "UZS", 100, "food money", none, none, false, "open", false⟩

def rowDebt : Txn :=
  ⟨1, 7, "expense", "Debt", 10000, "UZS", -10000, "lent to Aziz", some "Aziz",
    some 20250925, false, "open", false⟩

def rowRepay : Txn :=
  ⟨2, 7, "income", "Debt Repayment", 10000, "UZS", 0, "Repayment from Aziz", none,
    none, false, "open", false⟩

def sABC : Store := ⟨[rowA, rowB, rowC], 4⟩

def sABCd : Store :=
  ⟨[rowA, { rowB with isDeleted := true }, { rowC with balance := 150 }], 4⟩

def sAfter : Store :=
  ⟨[rowA, { rowB with isDeleted := true }, { rowC with balance := 150 }, rowD], 5⟩

def sNeg : Store := ⟨[rowA, rowNeg], 3⟩

def sFood : Store := ⟨[rowFood], 2⟩

def sDebt : Store := ⟨[rowDebt], 2⟩

def sMid : Store := ⟨[rowDebt, rowRepay], 3⟩

def sPaid : Store := ⟨[{ rowDebt with debtStatus := "paid" }, rowRepay], 3⟩

/-! ### Claim theorems -/

/-- Claim C1: for every owner and currency, after any sequence of
successful `add_multiple_transactions` and
`delete_transaction_and_recalculate` operations starting from the fresh
database, the non-deleted transactions of that (owner, currency) are in
strictly ascending id order and every stored `balance` equals the fold
of the non-deleted prefix (Income adds, Expense subtracts, seed 0). -/
theorem claim_C1 (s : Store) (h : Reach s) (uid : Nat) (cur : String) :
    (activeStream s uid cur).Pairwise (fun a b => a.id < b.id) ∧
    chain 0 (activeStream s uid cur) := by
  obtain ⟨hWF, hBI⟩ := reach_spec h
  exact ⟨hWF.1.filter _, hBI uid cur⟩

theorem claim_C1_witness :
    Reach sABCd ∧ chain 0 (activeStream sABCd 7 "UZS") := by
  have e1 : add_multiple_transactions Store.empty 7 [candA, candB, candC] =
      .ok (sABC, (120, 0), [1, 2, 3]) := by decide
  have h1 : Reach sABC := Reach.step_add Reach.init e1
  have e2 : delete_transaction_and_recalculate sABC 7 2 = .ok sABCd := by decide
  have h2 : Reach sABCd := Reach.step_del h1 e2
  exact ⟨h2, (claim_C1 sABCd h2 7 "UZS").2⟩

/-- Claim C2: on the store holding A (Income 100, balance 100),
B (Expense 30, balance 70), C (Income 50, balance 120) for owner 7 in
UZS, soft-deleting B keeps A at 100, recomputes C to 150 from the
baseline 100, marks B deleted, and `get_all_transactions` returns only
C and A (newest first). -/
theorem claim_C2 :
    add_multiple_transactions Store.empty 7 [candA, candB, candC] =
      .ok (sABC, (120, 0), [1, 2, 3]) ∧
    delete_transaction_and_recalculate sABC 7 2 = .ok sABCd ∧
    sABCd.rows.map (fun r => (r.id, r.balance, r.isDeleted)) =
      [(1, 100, false), (2, 70, true), (3, 150, false)] ∧
    (get_all_transactions sABCd 7).map Txn.id = [3, 1] := by decide

/-- Claim C3 counterexample: a batch of one valid candidate and one
negative-amount candidate commits BOTH rows and returns BOTH ids; the
negative-amount candidate is not skipped and its row is persisted,
contradicting the claim. -/
theorem claim_C3_cex :
    cNeg.amount < 0 ∧
    add_multiple_transactions Store.empty 7 [candA, cNeg] =
      .ok (sNeg, (150, 0), [1, 2]) ∧
    sNeg.rows.map (fun r => (r.id, r.amount)) = [(1, 100), (2, -50)] := by decide

/-- Claim C3 (amended): the insert loop validates only the `type`
field, never the amount.  A batch of two candidates with recognised
kinds and currencies — the second may have any amount, negative
included — commits both and returns both ids; a batch whose second
candidate has an unrecognised kind commits only the first, returns only
its id, and persists no row for the skipped candidate. -/
theorem claim_C3_amended (s : Store) (uid : Nat) (c1 c2 : Candidate) :
    (kindOk c1 → curOk c1 → kindOk c2 → curOk c2 →
      ∃ s' b, add_multiple_transactions s uid [c1, c2] =
        .ok (s', b, [s.nextId, s.nextId + 1]) ∧
        s'.rows.length = s.rows.length + 2) ∧
    (kindOk c1 → curOk c1 → ¬ kindOk c2 →
      ∃ row b, add_multiple_transactions s uid [c1, c2] =
        .ok ({ rows := s.rows ++ [row], nextId := s.nextId + 1 }, b, [s.nextId])) := by
  constructor
  · intro h1k h1c h2k h2c
    unfold kindOk at h1k h2k
    unfold curOk at h1c h2c
    unfold add_multiple_transactions
    simp only [add_loop]
    rw [if_pos h1k, if_pos h1c, if_pos h2k, if_pos h2c]
    refine ⟨_, _, rfl, by simp⟩
  · intro h1k h1c h2k
    unfold kindOk at h1k h2k
    unfold curOk at h1c
    unfold add_multiple_transactions
    simp only [add_loop]
    rw [if_pos h1k, if_pos h1c, if_neg h2k]
    exact ⟨_, _, rfl⟩

theorem claim_C3_witness :
    ∃ s' b, add_multiple_transactions Store.empty 7 [candA, cNeg] =
      .ok (s', b, [Store.empty.nextId, Store.empty.nextId + 1]) ∧
      s'.rows.length = Store.empty.rows.length + 2 :=
  (claim_C3_amended Store.empty 7 candA cNeg).1
    (by decide) (by decide) (by decide) (by decide)

/-- Claim C4 counterexample: the debt-paid branch never checks
`category`.  A non-Debt ("Food") transaction with the default Open
status transitions successfully, mutates the store, and appends a new
"Debt Repayment" transaction — the claim says this case must fail with
`InvalidState` and change nothing. -/
theorem claim_C4_cex :
    add_multiple_transactions Store.empty 7 [cFood] = .ok (sFood, (100, 0), [1]) ∧
    rowFood.category = "Food" ∧ rowFood.debtStatus = "open" ∧
    rowFood.isDeleted = false ∧
    (button_handler_debt_paid sFood 7 1).1 = DebtOutcome.paid ∧
    (button_handler_debt_paid sFood 7 1).2.rows.map
        (fun r => (r.id, r.category, r.debtStatus)) =
      [(1, "Food", "paid"), (2, "Debt Repayment", "open")] := by decide

/-- Claim C4 (amended): the debt-paid transition succeeds exactly when
the target transaction exists for that owner, is not deleted, and has
`debt_status` Open — the category is NOT checked, so any transaction
with the default Open status can transition.  In every other case
(missing row, deleted row, already-Paid status) it fails and leaves the
store untouched, appending nothing. -/
theorem claim_C4_amended (s : Store) (uid tid : Nat) (hWF : storeWF s) :
    ((button_handler_debt_paid s uid tid).1 = DebtOutcome.failed →
      (button_handler_debt_paid s uid tid).2 = s) ∧
    ((∀ t ∈ s.rows, ¬(t.id = tid ∧ t.userId = uid ∧ t.isDeleted = false ∧
        t.debtStatus = "open")) →
      button_handler_debt_paid s uid tid = (DebtOutcome.failed, s)) ∧
    (∀ t ∈ s.rows, t.id = tid → t.userId = uid → t.isDeleted = false →
      t.debtStatus = "open" → (t.currency = "UZS" ∨ t.currency = "USD") →
      (button_handler_debt_paid s uid tid).1 = DebtOutcome.paid) := by
  refine ⟨?_, ?_, ?_⟩
  · intro hfail
    simp only [button_handler_debt_paid] at hfail ⊢
    cases hg : debt_paid_guard s uid tid with
    | none => rfl
    | some t =>
      rw [hg] at hfail
      dsimp only at hfail ⊢
      cases ha : add_multiple_transactions s uid [repaymentCandidate t] with
      | error e => rfl
      | ok v =>
        obtain ⟨s1, b1, i1⟩ := v
        rw [ha] at hfail
        simp at hfail
  · intro hno
    unfold button_handler_debt_paid
    have hg : debt_paid_guard s uid tid = none := by
      unfold debt_paid_guard
      cases hf : s.rows.find? (fun r => r.id == tid && r.userId == uid && !r.isDeleted) with
      | none => rfl
      | some t0 =>
        have hmem := List.mem_of_find?_eq_some hf
        have hp := List.find?_some hf
        simp only [Bool.and_eq_true, beq_iff_eq, Bool.not_eq_true'] at hp
        obtain ⟨⟨h1, h2⟩, h3⟩ := hp
        have hstat : t0.debtStatus ≠ "open" := by
          intro hs0
          exact hno t0 hmem ⟨h1, h2, h3, hs0⟩
        simp [hstat]
    rw [hg]
  · intro t ht h1 h2 h3 h4 h5
    unfold button_handler_debt_paid
    have hg : debt_paid_guard s uid tid = some t := by
      unfold debt_paid_guard
      cases hf : s.rows.find? (fun r => r.id == tid && r.userId == uid && !r.isDeleted) with
      | none =>
        exfalso
        have := List.find?_eq_none.mp hf t ht
        simp [h1, h2, h3] at this
      | some t0 =>
        have hmem := List.mem_of_find?_eq_some hf
        have hp := List.find?_some hf
        simp only [Bool.and_eq_true, beq_iff_eq, Bool.not_eq_true'] at hp
        obtain ⟨⟨g1, g2⟩, g3⟩ := hp
        have he : t0 = t := pairwise_id_unique hWF.1 ht hmem (by rw [g1, h1])
        subst he
        simp [h4]
    rw [hg]
    have hk : pyLower (repaymentCandidate t).type = "expense" ∨
        pyLower (repaymentCandidate t).type = "income" := Or.inr pyLower_income
    have hcu : pyUpper ((repaymentCandidate t).currency.getD "UZS") = "UZS" ∨
        pyUpper ((repaymentCandidate t).currency.getD "UZS") = "USD" := by
      show pyUpper t.currency = "UZS" ∨ pyUpper t.currency = "USD"
      rcases h5 with hu | hu
      · rw [hu]; exact Or.inl pyUpper_UZS
      · rw [hu]; exact Or.inr pyUpper_USD
    have hrep : ∃ s1 b1 i1,
        add_multiple_transactions s uid [repaymentCandidate t] = .ok (s1, b1, i1) := by
      unfold add_multiple_transactions
      simp only [add_loop]
      rw [if_pos hk, if_pos hcu]
      exact ⟨_, _, _, rfl⟩
    obtain ⟨s1, b1, i1, ha⟩ := hrep
    simp [ha]

theorem claim_C4_witness :
    (button_handler_debt_paid sDebt 7 1).1 = DebtOutcome.paid :=
  (claim_C4_amended sDebt 7 1 (by decide)).2.2 rowDebt (by decide) (by decide)
    (by decide) (by decide) (by decide) (by decide)

/-- Claim C5 (code bug): the two writes of the debt-paid transition are
two separate commits on two separate connections (main.py:524 commits
inside `add_multiple_transactions` at main.py:144; main.py:525-528 is a
second connection).  At the failing input — an Open Debt of 10000 UZS —
the state after the first commit is durably visible and holds the new
"Debt Repayment" income while the original debt is still Open: exactly
the intermediate state the claim says must not exist.  The final state
does leave the original amount/category/kind unchanged. -/
theorem claim_C5_bug :
    add_multiple_transactions Store.empty 7 [cDebt] = .ok (sDebt, (-10000, 0), [1]) ∧
    debt_paid_after_first_commit sDebt 7 1 = some sMid ∧
    sMid.rows.map (fun r => (r.id, r.category, r.debtStatus)) =
      [(1, "Debt", "open"), (2, "Debt Repayment", "open")] ∧
    button_handler_debt_paid sDebt 7 1 = (DebtOutcome.paid, sPaid) ∧
    sPaid.rows.map (fun r => (r.id, r.category, r.debtStatus, r.amount, r.currency)) =
      [(1, "Debt", "paid", 10000, "UZS"), (2, "Debt Repayment", "open", 10000, "UZS")] := by
  decide

/-- Claim C6: `get_last_balance` returns the stored balance of the
non-deleted transaction with the greatest id for that (owner,
uppercased currency), and 0 when no such transaction exists. -/
theorem claim_C6 (s : Store) (uid : Nat) (cur : String) :
    ((∀ r ∈ s.rows, activeMatch uid (pyUpper cur) r = false) →
      get_last_balance s uid cur = 0) ∧
    (∀ r0 ∈ s.rows, activeMatch uid (pyUpper cur) r0 = true →
      ∃ m ∈ s.rows, activeMatch uid (pyUpper cur) m = true ∧
        (∀ r ∈ s.rows, activeMatch uid (pyUpper cur) r = true → r.id ≤ m.id) ∧
        get_last_balance s uid cur = m.balance) := by
  constructor
  · intro hnone
    unfold get_last_balance
    have he : s.rows.filter (activeMatch uid (pyUpper cur)) = [] :=
      List.filter_eq_nil_iff.mpr (fun r hr => by simp [hnone r hr])
    rw [he]
    rfl
  · intro r0 hr0mem hr0act
    cases hm : maxById (s.rows.filter (activeMatch uid (pyUpper cur))) with
    | none =>
      exfalso
      have he := maxById_eq_none.mp hm
      have : r0 ∈ s.rows.filter (activeMatch uid (pyUpper cur)) :=
        List.mem_filter.mpr ⟨hr0mem, hr0act⟩
      rw [he] at this
      simp at this
    | some m =>
      have hmem := maxById_mem hm
      refine ⟨m, (List.mem_filter.mp hmem).1, (List.mem_filter.mp hmem).2, ?_, ?_⟩
      · intro r hr hract
        exact maxById_le hm r (List.mem_filter.mpr ⟨hr, hract⟩)
      · unfold get_last_balance
        rw [hm]

theorem claim_C6_witness :
    get_last_balance sABC 7 "EUR" = 0 :=
  (claim_C6 sABC 7 "EUR").1 (by decide)

/-- Claim C7: the due-debt scan returns exactly the rows with category
"Debt", status Open, not deleted, not yet notified, and a due date at
or before the scan date (a NULL due date never qualifies); the scan
itself writes nothing, so running it twice returns the same list; and
after `markNotified` on a transaction, no row with that id is ever
returned by the scan again. -/
theorem claim_C7 (s : Store) (today tid : Nat) :
    (∀ r, r ∈ (check_due_debts_scan s today).1 ↔
      (r ∈ s.rows ∧ r.category = "Debt" ∧ r.debtStatus = "open" ∧
        r.isDeleted = false ∧ r.notified = false ∧
        ∃ d, r.returnDate = some d ∧ d ≤ today)) ∧
    (check_due_debts_scan ((check_due_debts_scan s today).2) today).1 =
      (check_due_debts_scan s today).1 ∧
    (∀ r ∈ (check_due_debts_scan (markNotified s tid) today).1, r.id ≠ tid) := by
  refine ⟨?_, rfl, ?_⟩
  · intro r
    unfold check_due_debts_scan
    rw [List.mem_filter]
    constructor
    · rintro ⟨hmem, hpred⟩
      simp only [Bool.and_eq_true, beq_iff_eq, Bool.not_eq_true'] at hpred
      obtain ⟨⟨⟨⟨hcat, hmatch⟩, hnot⟩, hdel⟩, hstat⟩ := hpred
      refine ⟨hmem, hcat, hstat, hdel, hnot, ?_⟩
      cases hrd : r.returnDate with
      | none => rw [hrd] at hmatch; simp at hmatch
      | some d =>
        rw [hrd] at hmatch
        simp at hmatch
        exact ⟨d, rfl, hmatch⟩
    · rintro ⟨hmem, hcat, hstat, hdel, hnot, d, hrd, hle⟩
      refine ⟨hmem, ?_⟩
      simp only [Bool.and_eq_true, beq_iff_eq, Bool.not_eq_true']
      refine ⟨⟨⟨⟨hcat, ?_⟩, hnot⟩, hdel⟩, hstat⟩
      rw [hrd]
      simp [hle]
  · intro r hr hid
    unfold check_due_debts_scan markNotified at hr
    rw [List.mem_filter] at hr
    obtain ⟨hmem, hpred⟩ := hr
    obtain ⟨x, hx, hxr⟩ := List.mem_map.mp hmem
    by_cases hxid : x.id = tid
    · rw [if_pos hxid] at hxr
      subst hxr
      simp only [Bool.and_eq_true, Bool.not_eq_true'] at hpred
      exact absurd hpred.1.1.2 (by simp)
    · rw [if_neg hxid] at hxr
      subst hxr
      exact hxid hid

theorem claim_C7_witness :
    rowDebt ∈ (check_due_debts_scan sDebt 20260101).1 ∧
    (check_due_debts_scan ((check_due_debts_scan sDebt 20260101).2) 20260101).1 =
      (check_due_debts_scan sDebt 20260101).1 :=
  ⟨((claim_C7 sDebt 20260101 1).1 rowDebt).mpr
      ⟨by decide, by decide, by decide, by decide, by decide,
        ⟨20250925, by decide, by decide⟩⟩,
    (claim_C7 sDebt 20260101 1).2.1⟩

/-- Claim C8: a batch insert only ever appends rows, so every
pre-existing row — in particular every row of the other currency —
survives unchanged; and a soft delete of a transaction in one currency
leaves every row of any other currency present and unchanged (its
stored `balance` included). -/
theorem claim_C8 (s : Store) (uid : Nat) (h : Reach s) :
    (∀ cands s' bal ids,
      add_multiple_transactions s uid cands = .ok (s', bal, ids) →
      ∃ tail, s'.rows = s.rows ++ tail) ∧
    (∀ tid s', delete_transaction_and_recalculate s uid tid = .ok s' →
      ∀ t ∈ s.rows, t.id = tid →
      ∀ r ∈ s.rows, r.currency ≠ t.currency → r ∈ s'.rows) := by
  obtain ⟨hWF, _⟩ := reach_spec h
  constructor
  · intro cands s' bal ids hadd
    exact (add_ok_spec hWF hadd).2.2.1
  · intro tid s' hdel t ht htid r hr hne
    obtain ⟨⟨t0, ht0mem, ht0id, _, _, hmem⟩, _, _, _⟩ := delete_ok_spec hWF hdel
    have he : t = t0 := pairwise_id_unique hWF.1 ht0mem ht (by rw [htid, ht0id])
    exact hmem r hr (he ▸ hne)

theorem claim_C8_witness :
    ∃ tail, sABC.rows = Store.empty.rows ++ tail :=
  (claim_C8 Store.empty 7 Reach.init).1 [candA, candB, candC] sABC (120, 0)
    [1, 2, 3] (by decide)

/-- Claim C9: on any reachable store, the ids a successful batch insert
returns are strictly greater than the id of every row already present
(rows are never removed, so these are all the previously assigned ids,
deleted ones included), and the new ids are themselves strictly
increasing — ids are never reassigned or reused. -/
theorem claim_C9 (s : Store) (uid : Nat) (cands : List Candidate)
    (s' : Store) (bal : ℚ × ℚ) (ids : List Nat) (h : Reach s)
    (hadd : add_multiple_transactions s uid cands = .ok (s', bal, ids)) :
    (∀ i ∈ ids, ∀ r ∈ s.rows, r.id < i) ∧ ids.Pairwise (· < ·) := by
  obtain ⟨hWF, _⟩ := reach_spec h
  obtain ⟨_, _, _, h4, h5⟩ := add_ok_spec hWF hadd
  exact ⟨h4, h5⟩

theorem claim_C9_witness :
    (∀ i ∈ [4], ∀ r ∈ sABCd.rows, r.id < i) ∧
    ([4] : List Nat).Pairwise (· < ·) := by
  have e1 : add_multiple_transactions Store.empty 7 [candA, candB, candC] =
      .ok (sABC, (120, 0), [1, 2, 3]) := by decide
  have h1 : Reach sABC := Reach.step_add Reach.init e1
  have e2 : delete_transaction_and_recalculate sABC 7 2 = .ok sABCd := by decide
  have h2 : Reach sABCd := Reach.step_del h1 e2
  exact claim_C9 sABCd 7 [candD] sAfter (160, 0) [4] h2 (by decide)

/-- Claim C10: a batch containing a candidate with a recognised kind
but a currency that is neither UZS nor USD raises `KeyError` inside the
loop, before `conn.commit()` is ever reached: the whole batch —
earlier valid candidates included — is rolled back and nothing is
committed (the error return carries no store; the caller keeps the
unchanged one). -/
theorem claim_C10 (s : Store) (uid : Nat) (cands : List Candidate)
    (h : ∃ c ∈ cands, kindOk c ∧ ¬ curOk c) :
    add_multiple_transactions s uid cands = .error "KeyError" := by
  unfold add_multiple_transactions
  rw [add_loop_error _ _ _ _ h]

theorem claim_C10_witness :
    add_multiple_transactions Store.empty 7 [candA, cBadCur] = .error "KeyError" :=
  claim_C10 Store.empty 7 [candA, cBadCur] ⟨cBadCur, by decide, by decide, by decide⟩
